import Mathlib

/-!
Verification of the core components of the littb-snapshot renderer:

* the in-memory image result cache of `og-preview.js`
  (`getCachedImage` / `setCachedImage`),
* the Puppeteer page pool of `page-pool.js` (`PagePool`),
* the browser-fatal error handling of the HTTP layer in `index.js`
  (`isBrowserError`, `closeBrowser`, `ensureBrowser`, `/healthz`),
* the guaranteed session cleanup of `crawler.js` and
  `og-preview.js` (`try/finally` blocks),
* HTML escaping in the OG meta tag generator
  (`escapeHtml`, `generateOgMetaTags`).

Each JavaScript function is translated into an executable Lean
definition; mutable module state (the cache `Map`, the pool arrays, the
`browser`/`pagePool`/`browserError` globals) becomes explicit state
passing.  JS `Map`s become insertion-ordered association lists, JS
`Set`s become `Finset`s, JS time stamps become `Int`.
-/

-- ===========================================================================
-- Result cache (og-preview.js: imageCache, getCachedImage, setCachedImage)
-- ===========================================================================

/-- One cache entry, `{buffer, timestamp}` as stored in `imageCache`.
The image buffer is opaque and modelled by an identifier. -/
structure CacheEntry where
  buffer : Nat
  timestamp : Int
deriving DecidableEq, Repr

/-- The shallow embedding of the JS `Map` used for `imageCache`:
an association list in insertion order with unique keys. -/
abbrev Cache := List (String × CacheEntry)

/-- `Map.get`: the binding of the key (first match). -/
def mapGet : Cache → String → Option CacheEntry
  | [], _ => none
  | (k', v) :: t, k => if k' = k then some v else mapGet t k

/-- `Map.delete`: remove the binding of the key. -/
def mapDelete : Cache → String → Cache
  | [], _ => []
  | (k', v) :: t, k => if k' = k then t else (k', v) :: mapDelete t k

/-- `Map.set`: overwrite in place when the key is present (keeping its
insertion position), otherwise append at the end. -/
def mapSet : Cache → String → CacheEntry → Cache
  | [], k, v => [(k, v)]
  | (k', v') :: t, k, v =>
      if k' = k then (k, v) :: t else (k', v') :: mapSet t k v

/-- `imageCache.keys().next().value`: the first-inserted key, if any. -/
def oldestKey : Cache → Option String
  | [] => none
  | (k, _) :: _ => some k

/-- `CACHE_TTL = 60 * 60 * 1000` (one hour in ms). -/
def CACHE_TTL : Int := 60 * 60 * 1000

/-- `MAX_CACHE_SIZE = 100`. -/
def MAX_CACHE_SIZE : Nat := 100

/-- `getCachedImage(url)` called at time `now` (`Date.now()`):
returns the buffer on a fresh hit; deletes the entry and misses when
it has expired; misses otherwise.  Returns the result together with
the cache state after the call. -/
def getCachedImage (c : Cache) (now : Int) (url : String) :
    Option Nat × Cache :=
  match mapGet c url with
  | some cached =>
      if now - cached.timestamp < CACHE_TTL then (some cached.buffer, c)
      else (none, mapDelete c url)
  | none => (none, c)

/-- `setCachedImage(url, buffer)` called at time `now`: when the cache
holds at least `MAX_CACHE_SIZE` entries, delete the oldest-inserted
key first; then `set` the key with a fresh timestamp. -/
def setCachedImage (c : Cache) (now : Int) (url : String) (buffer : Nat) :
    Cache :=
  let c1 :=
    if MAX_CACHE_SIZE ≤ c.length then
      match oldestKey c with
      | some k => mapDelete c k
      | none => c
    else c
  mapSet c1 url ⟨buffer, now⟩

-- Basic lemmas about the map model.

theorem mapDelete_oldest (c : Cache) :
    (match oldestKey c with
     | some k => mapDelete c k
     | none => c) = c.tail := by
  cases c with
  | nil => rfl
  | cons h t =>
      simp [oldestKey, mapDelete]

theorem mapGet_mapSet (c : Cache) (k : String) (v : CacheEntry) :
    mapGet (mapSet c k v) k = some v := by
  induction c with
  | nil => simp [mapSet, mapGet]
  | cons h t ih =>
      by_cases hk : h.1 = k
      · simp [mapSet, hk, mapGet]
      · simp [mapSet, hk, mapGet, ih]

theorem mapSet_of_not_mem (c : Cache) (k : String) (v : CacheEntry)
    (h : mapGet c k = none) : mapSet c k v = c ++ [(k, v)] := by
  induction c with
  | nil => simp [mapSet]
  | cons hd t ih =>
      by_cases hk : hd.1 = k
      · simp [mapGet, hk] at h
      · simp [mapGet, hk] at h
        simp [mapSet, hk, ih h]

theorem mapGet_eq_none_of_not_key (c : Cache) (k : String)
    (h : ∀ p ∈ c, p.1 ≠ k) : mapGet c k = none := by
  induction c with
  | nil => rfl
  | cons hd t ih =>
      have h1 : hd.1 ≠ k := h hd (List.mem_cons_self hd t)
      simp [mapGet, h1]
      exact ih fun p hp => h p (List.mem_cons_of_mem hd hp)

-- Concrete cache states used as witnesses and counterexamples.

/-- Distinct single-character keys for concrete cache states. -/
def keyOf (i : Nat) : String := String.mk [Char.ofNat (100 + i)]

/-- A cache filled to `MAX_CACHE_SIZE` with fresh entries (timestamp 0). -/
def fullCache : Cache :=
  (List.range MAX_CACHE_SIZE).map (fun i => (keyOf i, ⟨i, 0⟩))

/-- Claim C2, counterexample: the cache is at capacity and already
contains the key `keyOf 1` with a non-expired entry (age `5 - 0` is
below the TTL), yet `setCachedImage` still evicts the unrelated
oldest entry `keyOf 0`.  The claim states that no other entry is
evicted when the key is already present, so the claim is false. -/
theorem put_existing_key_still_evicts :
    mapGet fullCache (keyOf 1) = some ⟨1, 0⟩ ∧
    ((5 : Int) - (0 : Int) < CACHE_TTL) ∧
    mapGet fullCache (keyOf 0) = some ⟨0, 0⟩ ∧
    mapGet (setCachedImage fullCache 5 (keyOf 1) 7) (keyOf 0) = none := by
  decide

theorem setCachedImage_eq (c : Cache) (now : Int) (url : String)
    (b : Nat) :
    setCachedImage c now url b
      = mapSet (if MAX_CACHE_SIZE ≤ c.length then c.tail else c) url
          ⟨b, now⟩ := by
  unfold setCachedImage
  by_cases h : MAX_CACHE_SIZE ≤ c.length
  · simp only [h, if_true, mapDelete_oldest]
  · simp only [h, if_false]

/-- Claim C2 (amended): `setCachedImage` evicts the oldest-inserted
entry whenever the cache holds at least `MAX_CACHE_SIZE` entries,
regardless of whether the key is already present; afterwards the key
maps to the new payload with the fresh timestamp. -/
theorem setCachedImage_always_evicts_oldest (c : Cache) (now : Int)
    (url : String) (b : Nat) :
    setCachedImage c now url b
      = mapSet (if MAX_CACHE_SIZE ≤ c.length then c.tail else c) url
          ⟨b, now⟩ ∧
    mapGet (setCachedImage c now url b) url = some ⟨b, now⟩ :=
  ⟨setCachedImage_eq c now url b, mapGet_mapSet _ _ _⟩

theorem mapGet_cons_none {k : String} {v : CacheEntry} {t : Cache}
    {url : String} (h : mapGet ((k, v) :: t) url = none) :
    k ≠ url ∧ mapGet t url = none := by
  by_cases hk : k = url
  · simp [mapGet, hk] at h
  · simp [mapGet, hk] at h
    exact ⟨hk, h⟩

/-- Claim C5: when a put of a new key finds the cache at maximum size,
the entry evicted is exactly the oldest-inserted surviving entry (the
head of the insertion-ordered map): the result is the remaining
entries, in order, with the new key appended, and the old head key is
gone.  Moreover a `getCachedImage` call that hits a non-expired entry
leaves the cache state unchanged, so interleaved gets never change
which entry is evicted (FIFO, not LRU). -/
theorem eviction_is_fifo (c : Cache) (now now' : Int) (url url' : String)
    (b : Nat) (hnodup : (c.map Prod.fst).Nodup)
    (hfull : MAX_CACHE_SIZE ≤ c.length) (hnew : mapGet c url = none) :
    (∃ k v t, c = (k, v) :: t ∧
        setCachedImage c now url b = t ++ [(url, ⟨b, now⟩)] ∧
        mapGet (setCachedImage c now url b) k = none) ∧
    (∀ e, mapGet c url' = some e → now' - e.timestamp < CACHE_TTL →
        (getCachedImage c now' url').2 = c) := by
  constructor
  · cases c with
    | nil => simp [MAX_CACHE_SIZE] at hfull
    | cons hd t =>
        obtain ⟨k, v⟩ := hd
        refine ⟨k, v, t, rfl, ?_, ?_⟩
        · have heq := setCachedImage_eq ((k, v) :: t) now url b
          rw [if_pos hfull] at heq
          rw [heq]
          have hnew' := (mapGet_cons_none hnew).2
          exact mapSet_of_not_mem t url ⟨b, now⟩ hnew'
        · have heq := setCachedImage_eq ((k, v) :: t) now url b
          rw [if_pos hfull] at heq
          rw [heq]
          have hnew' := (mapGet_cons_none hnew).2
          rw [show (((k, v) :: t) : Cache).tail = t from rfl,
            mapSet_of_not_mem t url ⟨b, now⟩ hnew']
          apply mapGet_eq_none_of_not_key
          intro p hp
          rcases List.mem_append.1 hp with hpt | hpu
          · simp only [List.map_cons, List.nodup_cons] at hnodup
            intro hpk
            exact hnodup.1 (hpk ▸ List.mem_map_of_mem Prod.fst hpt)
          · have : p = (url, ⟨b, now⟩) := by simpa using hpu
            subst this
            exact fun h => (mapGet_cons_none hnew).1 h.symm
  · intro e he hfresh
    unfold getCachedImage
    rw [he]
    simp [hfresh]

/-- A key distinct from every key of `fullCache`. -/
def freshKey : String := String.mk [Char.ofNat 50]

/-- Witness for C5 at a concrete full cache. -/
theorem eviction_is_fifo_witness :
    (∃ k v t, fullCache = (k, v) :: t ∧
        setCachedImage fullCache 5 freshKey 7 = t ++ [(freshKey, ⟨7, 5⟩)] ∧
        mapGet (setCachedImage fullCache 5 freshKey 7) k = none) ∧
    (∀ e, mapGet fullCache (keyOf 3) = some e →
        (5 : Int) - e.timestamp < CACHE_TTL →
        (getCachedImage fullCache 5 (keyOf 3)).2 = fullCache) :=
  eviction_is_fifo fullCache 5 5 freshKey (keyOf 3) 7
    (by decide) (by decide) (by decide)

/-- Claim C6: `getCachedImage` returns the stored payload when an entry
exists whose age is strictly below the TTL; when an entry exists with
age at least the TTL it deletes that entry and misses; when no entry
exists it misses and leaves the cache unchanged. -/
theorem getCachedImage_ttl (c : Cache) (now : Int) (url : String) :
    (∀ e, mapGet c url = some e → now - e.timestamp < CACHE_TTL →
        getCachedImage c now url = (some e.buffer, c)) ∧
    (∀ e, mapGet c url = some e → CACHE_TTL ≤ now - e.timestamp →
        getCachedImage c now url = (none, mapDelete c url)) ∧
    (mapGet c url = none → getCachedImage c now url = (none, c)) := by
  refine ⟨?_, ?_, ?_⟩
  · intro e he hfresh
    unfold getCachedImage
    rw [he]
    simp [hfresh]
  · intro e he hstale
    unfold getCachedImage
    rw [he]
    simp [not_lt.mpr hstale]
  · intro h
    unfold getCachedImage
    rw [h]

/-- Witness for C6: a fresh hit, a stale hit and a miss, evaluated. -/
theorem getCachedImage_ttl_witness :
    getCachedImage [( "k", ⟨5, 0⟩ )] 10 "k" = (some 5, [( "k", ⟨5, 0⟩ )]) ∧
    getCachedImage [( "k", ⟨5, 0⟩ )] 3600000 "k"
      = (none, mapDelete [( "k", ⟨5, 0⟩ )] "k" ) ∧
    getCachedImage ([] : Cache) 0 "k" = (none, []) :=
  ⟨(getCachedImage_ttl [( "k", ⟨5, 0⟩ )] 10 "k" ).1 ⟨5, 0⟩ (by decide)
      (by decide),
   (getCachedImage_ttl [( "k", ⟨5, 0⟩ )] 3600000 "k" ).2.1 ⟨5, 0⟩ (by decide)
      (by decide),
   (getCachedImage_ttl ([] : Cache) 0 "k" ).2.2 rfl⟩

-- ===========================================================================
-- Page pool (page-pool.js: class PagePool)
-- ===========================================================================

/-- State of a `PagePool` together with the page bookkeeping the claims
need.  Pages are identified by creation order: `browser.newPage()`
returns page `nextId` and increments it.  `available` is the JS array
`availablePages` in array order (`push` and `pop` act on the end);
`busy` is the JS `Set` `busyPages`; `temps` records the pages whose
`_isTemporary` flag was set; `closedPages` records the pages on which
`close()` was called.  `inited` models the `initialized` flag. -/
structure PoolState where
  poolSize : Nat
  available : List Nat
  busy : Finset Nat
  inited : Bool
  nextId : Nat
  temps : Finset Nat
  closedPages : Finset Nat
deriving DecidableEq

/-- `new PagePool(browser, capacity)`. -/
def PoolState.mk0 (capacity : Nat) : PoolState :=
  { poolSize := capacity, available := [], busy := ∅, inited := false,
    nextId := 0, temps := ∅, closedPages := ∅ }

/-- The loop body of `init()`: for each attempted `newPage()` (`true` =
page created, `false` = the call threw and the failure was only
logged), push the created page onto `availablePages`. -/
def initLoop : PoolState → List Bool → PoolState
  | st, [] => st
  | st, ok :: rest =>
      if ok then
        initLoop { st with available := st.available ++ [st.nextId],
                           nextId := st.nextId + 1 } rest
      else initLoop st rest

/-- `init()`: a no-op when already initialized, otherwise `poolSize`
best-effort page creations followed by `initialized = true`.  The
oracle `oks` tells whether each `newPage()` call succeeds (`getD`
defaults to success for a short oracle list). -/
def PoolState.init (st : PoolState) (oks : List Bool) : PoolState :=
  if st.inited then st
  else
    { initLoop st ((List.range st.poolSize).map (fun i => oks.getD i true))
        with inited := true }

/-- The body of `acquire()` after the lazy `init()`: `pop()` the last
page of `availablePages`.  If none is available, create a page marked
`_isTemporary` and add it to `busy`.  Otherwise run `resetPage` on the
popped page: on reset failure the page is closed and a replacement is
created, but `acquire` ignores `resetPage`'s return value, so the
popped page itself is added to `busy` and returned while the
replacement page is tracked nowhere.  The result is `none` when an
exception propagates out of `acquire` (a failed `newPage()`).
Oracles: `oks` drives a lazy `init`, `resetOk` is whether `resetPage`'s
body succeeds, `replOk` whether the replacement `newPage()` succeeds,
`tempOk` whether the temporary-page `newPage()` succeeds. -/
def PoolState.acquireCore (st : PoolState)
    (resetOk replOk tempOk : Bool) : PoolState × Option Nat :=
  match st.available.getLast? with
  | none =>
      if tempOk then
        let p := st.nextId
        ({ st with nextId := p + 1,
                   temps := insert p st.temps,
                   busy := insert p st.busy }, some p)
      else (st, none)
  | some p =>
      let st1 := { st with available := st.available.dropLast }
      if resetOk then
        ({ st1 with busy := insert p st1.busy }, some p)
      else
        let st2 := { st1 with closedPages := insert p st1.closedPages }
        if replOk then
          ({ st2 with nextId := st2.nextId + 1,
                      busy := insert p st2.busy }, some p)
        else (st2, none)

/-- `acquire()` itself: the lazy `init()` followed by the body above. -/
def PoolState.acquire (st : PoolState) (oks : List Bool)
    (resetOk replOk tempOk : Bool) : PoolState × Option Nat :=
  (if st.inited then st else st.init oks).acquireCore resetOk replOk tempOk

/-- `release(page)`: drop the page from `busy`; close it when it is
temporary, otherwise push it back onto `availablePages`
unconditionally. -/
def PoolState.release (st : PoolState) (p : Nat) : PoolState :=
  if p ∈ st.temps then
    { st with busy := st.busy.erase p,
              closedPages := insert p st.closedPages }
  else
    { st with busy := st.busy.erase p,
              available := st.available ++ [p] }

/-- `destroy()`: close every available and busy page, clear both
collections, reset `initialized`. -/
def PoolState.destroy (st : PoolState) : PoolState :=
  { st with closedPages := st.closedPages ∪ st.available.toFinset ∪ st.busy,
            available := [], busy := ∅, inited := false }

/-- `getStats()`: total capacity, available, busy, initialization. -/
def PoolState.getStats (st : PoolState) : Nat × Nat × Nat × Bool :=
  (st.poolSize, st.available.length, st.busy.card, st.inited)

/-- One pool operation together with its failure oracles. -/
inductive PoolOp where
  | opInit (oks : List Bool)
  | opAcquire (oks : List Bool) (resetOk replOk tempOk : Bool)
  | opRelease (p : Nat)
  | opDestroy
deriving DecidableEq

def stepPool (st : PoolState) : PoolOp → PoolState
  | .opInit oks => st.init oks
  | .opAcquire oks r rp t => (st.acquire oks r rp t).1
  | .opRelease p => st.release p
  | .opDestroy => st.destroy

def runPool (st : PoolState) : List PoolOp → PoolState
  | [] => st
  | op :: rest => runPool (stepPool st op) rest

/-- The pool state reached from `new PagePool(browser, capacity)` by a
sequence of operations. -/
def poolAfter (capacity : Nat) (tr : List PoolOp) : PoolState :=
  runPool (PoolState.mk0 capacity) tr

/-- Well-formed release: the caller only releases a session it holds,
i.e. one currently in `busy` (no double release). -/
def wfRelOp (st : PoolState) : PoolOp → Bool
  | .opRelease p => decide (p ∈ st.busy)
  | _ => true

def wfRelTrace (st : PoolState) : List PoolOp → Bool
  | [] => true
  | op :: rest => wfRelOp st op && wfRelTrace (stepPool st op) rest

/-- Well-formed release and, additionally, every `resetPage` succeeds. -/
def wfFullOp (st : PoolState) : PoolOp → Bool
  | .opRelease p => decide (p ∈ st.busy)
  | .opAcquire _ resetOk _ _ => resetOk
  | _ => true

def wfFullTrace (st : PoolState) : List PoolOp → Bool
  | [] => true
  | op :: rest => wfFullOp st op && wfFullTrace (stepPool st op) rest

-- Facts about the init loop.

theorem initLoop_unchanged (l : List Bool) (st : PoolState) :
    (initLoop st l).busy = st.busy ∧ (initLoop st l).temps = st.temps ∧
    (initLoop st l).closedPages = st.closedPages ∧
    (initLoop st l).inited = st.inited ∧
    (initLoop st l).poolSize = st.poolSize := by
  induction l generalizing st with
  | nil => exact ⟨rfl, rfl, rfl, rfl, rfl⟩
  | cons ok rest ih =>
      cases ok
      · simpa [initLoop] using ih st
      · simpa [initLoop] using ih _

theorem initLoop_nextId_le (l : List Bool) (st : PoolState) :
    st.nextId ≤ (initLoop st l).nextId := by
  induction l generalizing st with
  | nil => exact le_refl _
  | cons ok rest ih =>
      cases ok
      · simpa [initLoop] using ih st
      · simp only [initLoop, if_true]
        exact le_trans (Nat.le_succ _)
          (ih { st with available := st.available ++ [st.nextId],
                        nextId := st.nextId + 1 })

theorem initLoop_len (l : List Bool) (st : PoolState) :
    (initLoop st l).available.length ≤ st.available.length + l.length := by
  induction l generalizing st with
  | nil => simp [initLoop]
  | cons ok rest ih =>
      cases ok
      · simp only [initLoop, if_false]
        exact le_trans (ih st) (Nat.add_le_add_left (Nat.le_succ _) _)
      · simp only [initLoop, if_true]
        refine le_trans (ih _) ?_
        simp only [List.length_append, List.length_cons, List.length_nil]
        omega

theorem initLoop_mem_mono (l : List Bool) (st : PoolState) (p : Nat)
    (hp : p ∈ st.available) : p ∈ (initLoop st l).available := by
  induction l generalizing st with
  | nil => exact hp
  | cons ok rest ih =>
      cases ok
      · simpa [initLoop] using ih st hp
      · simp only [initLoop, if_true]
        exact ih _ (List.mem_append_left _ hp)

theorem initLoop_nodup_lt (l : List Bool) (st : PoolState)
    (h1 : st.available.Nodup) (h2 : ∀ p ∈ st.available, p < st.nextId) :
    (initLoop st l).available.Nodup ∧
    (∀ p ∈ (initLoop st l).available, p < (initLoop st l).nextId) := by
  induction l generalizing st with
  | nil => exact ⟨h1, h2⟩
  | cons ok rest ih =>
      cases ok
      · simpa [initLoop] using ih st h1 h2
      · simp only [initLoop, if_true]
        refine ih _ ?_ ?_
        · refine List.Nodup.append h1 (List.nodup_singleton _) ?_
          intro q hq hq'
          simp at hq'
          subst hq'
          exact absurd (h2 _ hq) (lt_irrefl _)
        · intro q hq
          rcases List.mem_append.1 hq with h | h
          · exact lt_trans (h2 _ h) (Nat.lt_succ_self _)
          · simp at h
            subst h
            exact Nat.lt_succ_self _

theorem initLoop_fresh (l : List Bool) (st : PoolState) (p : Nat)
    (hle : st.nextId ≤ p) (hlt : p < (initLoop st l).nextId) :
    p ∈ (initLoop st l).available := by
  induction l generalizing st with
  | nil => exact absurd hlt (by simp [initLoop]; omega)
  | cons ok rest ih =>
      cases ok
      · simp only [initLoop, if_false] at hlt ⊢
        exact ih st hle hlt
      · simp only [initLoop, if_true] at hlt ⊢
        rcases Nat.eq_or_lt_of_le hle with heq | hlt'
        · exact initLoop_mem_mono _ _ _ (by simp [← heq])
        · exact ih _ hlt' hlt

-- The pool bookkeeping invariant.

/-- Bookkeeping invariant of the pool: the available array holds no
duplicates, is disjoint from the busy set, holds neither temporary nor
closed pages, all tracked pages were created by the pool, an
uninitialized pool is empty, and the non-temporary sessions in the two
collections never exceed the capacity. -/
structure PoolInv (st : PoolState) : Prop where
  availNodup : st.available.Nodup
  availBusy : ∀ p ∈ st.available, p ∉ st.busy
  availTemp : ∀ p ∈ st.available, p ∉ st.temps
  availLt : ∀ p ∈ st.available, p < st.nextId
  busyLt : ∀ p ∈ st.busy, p < st.nextId
  tempsLt : ∀ p ∈ st.temps, p < st.nextId
  uninit : st.inited = false → st.available = [] ∧ st.busy = ∅
  bound : st.available.length
      + (st.busy.filter (fun p => p ∉ st.temps)).card ≤ st.poolSize

/-- Every live (neither closed nor temporary) page created by the pool
is tracked in one of the two collections. -/
def liveTracked (st : PoolState) : Prop :=
  ∀ p, p < st.nextId → p ∉ st.temps → p ∉ st.closedPages →
    p ∈ st.available ∨ p ∈ st.busy

theorem poolInv_mk0 (capacity : Nat) : PoolInv (PoolState.mk0 capacity) := by
  refine ⟨?_, ?_, ?_, ?_, ?_, ?_, ?_, ?_⟩ <;>
    simp [PoolState.mk0]

theorem liveTracked_mk0 (capacity : Nat) :
    liveTracked (PoolState.mk0 capacity) := by
  intro p hp
  simp [PoolState.mk0] at hp

theorem initLoop_mem_src (l : List Bool) (st : PoolState) (p : Nat)
    (hp : p ∈ (initLoop st l).available) :
    p ∈ st.available ∨ st.nextId ≤ p := by
  induction l generalizing st with
  | nil => exact Or.inl hp
  | cons ok rest ih =>
      cases ok
      · simp only [initLoop, if_false] at hp
        exact ih st hp
      · simp only [initLoop, if_true] at hp
        rcases ih _ hp with h | h
        · rcases List.mem_append.1 h with h' | h'
          · exact Or.inl h'
          · simp at h'
            subst h'
            exact Or.inr (le_refl _)
        · exact Or.inr (le_trans (Nat.le_succ _) h)

theorem poolInv_init (st : PoolState) (oks : List Bool) (h : PoolInv st) :
    PoolInv (st.init oks) := by
  unfold PoolState.init
  by_cases hi : st.inited
  · simpa [hi] using h
  · simp only [hi, if_false]
    obtain ⟨hav, hbu⟩ := h.uninit (by simpa using hi)
    set l := (List.range st.poolSize).map (fun i => oks.getD i true) with hl
    obtain ⟨hbusy, htemps, hclosed, _, hps⟩ := initLoop_unchanged l st
    obtain ⟨hnodup, hlt⟩ := initLoop_nodup_lt l st h.availNodup h.availLt
    refine ⟨hnodup, ?_, ?_, hlt, ?_, ?_, ?_, ?_⟩
    · intro p _
      show p ∉ (initLoop st l).busy
      rw [hbusy, hbu]
      exact Finset.not_mem_empty p
    · intro p hp hq
      replace hq : p ∈ st.temps := by rwa [htemps] at hq
      rcases initLoop_mem_src l st p hp with h' | h'
      · rw [hav] at h'
        exact absurd h' (List.not_mem_nil p)
      · exact absurd (h.tempsLt p hq) (by omega)
    · intro p hp
      replace hp : p ∈ (∅ : Finset Nat) := by rwa [hbusy, hbu] at hp
      exact absurd hp (Finset.not_mem_empty p)
    · intro p hp
      replace hp : p ∈ st.temps := by rwa [htemps] at hp
      exact lt_of_lt_of_le (h.tempsLt p hp) (initLoop_nextId_le l st)
    · intro hcon
      simp at hcon
    · have hlen := initLoop_len l st
      rw [hav] at hlen
      simp only [List.length_nil, Nat.zero_add] at hlen
      have hlenl : l.length = st.poolSize := by
        rw [hl]
        simp
      show (initLoop st l).available.length
          + ((initLoop st l).busy.filter
              (fun p => p ∉ (initLoop st l).temps)).card
          ≤ (initLoop st l).poolSize
      rw [hbusy, hbu, hps]
      simp only [Finset.filter_empty, Finset.card_empty]
      omega

theorem init_inited (st : PoolState) (oks : List Bool) :
    (st.init oks).inited = true := by
  unfold PoolState.init
  by_cases hi : st.inited
  · simpa [hi] using hi
  · simp [hi]

theorem poolInv_acquireCore (st : PoolState) (r rp t : Bool)
    (h : PoolInv st) (hin : st.inited = true) :
    PoolInv (st.acquireCore r rp t).1 := by
  unfold PoolState.acquireCore
  rcases hgl : st.available.getLast? with _ | p
  · have hav : st.available = [] := List.getLast?_eq_none_iff.1 hgl
    cases t with
    | false => exact h
    | true =>
        refine ⟨h.availNodup, ?_, ?_, ?_, ?_, ?_, ?_, ?_⟩
        · intro q hq
          rw [hav] at hq
          exact absurd hq (List.not_mem_nil q)
        · intro q hq
          rw [hav] at hq
          exact absurd hq (List.not_mem_nil q)
        · intro q hq
          rw [hav] at hq
          exact absurd hq (List.not_mem_nil q)
        · intro q hq
          rcases Finset.mem_insert.1 hq with hq' | hq'
          · subst hq'
            exact Nat.lt_succ_self _
          · exact lt_trans (h.busyLt q hq') (Nat.lt_succ_self _)
        · intro q hq
          rcases Finset.mem_insert.1 hq with hq' | hq'
          · subst hq'
            exact Nat.lt_succ_self _
          · exact lt_trans (h.tempsLt q hq') (Nat.lt_succ_self _)
        · intro hcon
          rw [hin] at hcon
          cases hcon
        · show st.available.length
            + ((insert st.nextId st.busy).filter
                (fun q => q ∉ insert st.nextId st.temps)).card ≤ st.poolSize
          have h1 : (insert st.nextId st.busy).filter
              (fun q => q ∉ insert st.nextId st.temps)
              = st.busy.filter (fun q => q ∉ insert st.nextId st.temps) := by
            rw [Finset.filter_insert]
            simp
          have h2 : st.busy.filter (fun q => q ∉ insert st.nextId st.temps)
              = st.busy.filter (fun q => q ∉ st.temps) := by
            apply Finset.filter_congr
            intro q hq
            have := h.busyLt q hq
            simp only [Finset.mem_insert]
            constructor
            · intro hx hy
              exact hx (Or.inr hy)
            · intro hx hy
              rcases hy with hy | hy
              · omega
              · exact hx hy
          rw [h1, h2]
          exact h.bound
  · have hmem : p ∈ st.available.getLast? := by rw [hgl]; rfl
    have hdecomp : st.available.dropLast ++ [p] = st.available :=
      List.dropLast_append_getLast? p hmem
    have hpmem : p ∈ st.available := by
      rw [← hdecomp]
      exact List.mem_append_right _ (by simp)
    have hdl_nodup : st.available.dropLast.Nodup :=
      h.availNodup.sublist (List.dropLast_sublist _)
    have hpnot : p ∉ st.available.dropLast := by
      have hnd := h.availNodup
      rw [← hdecomp] at hnd
      rcases List.nodup_append.1 hnd with ⟨_, _, hdisj⟩
      intro hc
      exact hdisj hc (by simp)
    have hdllen : st.available.dropLast.length + 1 = st.available.length := by
      conv_rhs => rw [← hdecomp]
      simp
    have hsub : ∀ q ∈ st.available.dropLast, q ∈ st.available :=
      fun q hq => (List.dropLast_sublist st.available).subset hq
    have hptemp : p ∉ st.temps := h.availTemp p hpmem
    have hfilter : (insert p st.busy).filter (fun q => q ∉ st.temps)
        = insert p (st.busy.filter (fun q => q ∉ st.temps)) := by
      rw [Finset.filter_insert]
      simp [hptemp]
    cases r with
    | true =>
        refine ⟨hdl_nodup, ?_, ?_, ?_, ?_, h.tempsLt, ?_, ?_⟩
        · intro q hq
          intro hc
          rcases Finset.mem_insert.1 hc with hc' | hc'
          · exact hpnot (hc' ▸ hq)
          · exact h.availBusy q (hsub q hq) hc'
        · intro q hq
          exact h.availTemp q (hsub q hq)
        · intro q hq
          exact h.availLt q (hsub q hq)
        · intro q hq
          rcases Finset.mem_insert.1 hq with hq' | hq'
          · exact hq' ▸ h.availLt p hpmem
          · exact h.busyLt q hq'
        · intro hcon
          rw [hin] at hcon
          cases hcon
        · show st.available.dropLast.length
            + ((insert p st.busy).filter (fun q => q ∉ st.temps)).card
            ≤ st.poolSize
          rw [hfilter]
          have := Finset.card_insert_le p
            (st.busy.filter (fun q => q ∉ st.temps))
          have hb := h.bound
          omega
    | false =>
        cases rp with
        | true =>
            refine ⟨hdl_nodup, ?_, ?_, ?_, ?_, ?_, ?_, ?_⟩
            · intro q hq
              intro hc
              rcases Finset.mem_insert.1 hc with hc' | hc'
              · exact hpnot (hc' ▸ hq)
              · exact h.availBusy q (hsub q hq) hc'
            · intro q hq
              exact h.availTemp q (hsub q hq)
            · intro q hq
              exact lt_trans (h.availLt q (hsub q hq)) (Nat.lt_succ_self _)
            · intro q hq
              rcases Finset.mem_insert.1 hq with hq' | hq'
              · exact lt_trans (hq' ▸ h.availLt p hpmem) (Nat.lt_succ_self _)
              · exact lt_trans (h.busyLt q hq') (Nat.lt_succ_self _)
            · intro q hq
              exact lt_trans (h.tempsLt q hq) (Nat.lt_succ_self _)
            · intro hcon
              rw [hin] at hcon
              cases hcon
            · show st.available.dropLast.length
                + ((insert p st.busy).filter (fun q => q ∉ st.temps)).card
                ≤ st.poolSize
              rw [hfilter]
              have := Finset.card_insert_le p
                (st.busy.filter (fun q => q ∉ st.temps))
              have hb := h.bound
              omega
        | false =>
            refine ⟨hdl_nodup, ?_, ?_, ?_, h.busyLt, h.tempsLt, ?_, ?_⟩
            · intro q hq
              exact h.availBusy q (hsub q hq)
            · intro q hq
              exact h.availTemp q (hsub q hq)
            · intro q hq
              exact h.availLt q (hsub q hq)
            · intro hcon
              rw [hin] at hcon
              cases hcon
            · show st.available.dropLast.length
                + (st.busy.filter (fun q => q ∉ st.temps)).card ≤ st.poolSize
              have hb := h.bound
              omega

theorem poolInv_acquire (st : PoolState) (oks : List Bool)
    (r rp t : Bool) (h : PoolInv st) : PoolInv (st.acquire oks r rp t).1 := by
  unfold PoolState.acquire
  by_cases hi : st.inited
  · exact poolInv_acquireCore _ r rp t (by simpa [hi] using h)
      (by simpa [hi] using hi)
  · have h1 := poolInv_init st oks h
    have h2 := init_inited st oks
    simp only [hi, if_false]
    exact poolInv_acquireCore _ r rp t h1 h2

theorem poolInv_release (st : PoolState) (p : Nat) (h : PoolInv st)
    (hp : p ∈ st.busy) : PoolInv (st.release p) := by
  unfold PoolState.release
  have hpav : p ∉ st.available := fun hc => h.availBusy p hc hp
  by_cases ht : p ∈ st.temps
  · simp only [ht, if_true]
    refine ⟨h.availNodup, ?_, h.availTemp, h.availLt, ?_, h.tempsLt, ?_, ?_⟩
    · intro q hq hc
      exact h.availBusy q hq (Finset.mem_of_mem_erase hc)
    · intro q hq
      exact h.busyLt q (Finset.mem_of_mem_erase hq)
    · intro hcon
      obtain ⟨h1, h2⟩ := h.uninit hcon
      rw [h2] at hp
      exact absurd hp (Finset.not_mem_empty p)
    · show st.available.length
        + ((st.busy.erase p).filter (fun q => q ∉ st.temps)).card
        ≤ st.poolSize
      have hsub : ((st.busy.erase p).filter (fun q => q ∉ st.temps)).card
          ≤ (st.busy.filter (fun q => q ∉ st.temps)).card := by
        apply Finset.card_le_card
        intro q hq
        rcases Finset.mem_filter.1 hq with ⟨hq1, hq2⟩
        exact Finset.mem_filter.2 ⟨Finset.mem_of_mem_erase hq1, hq2⟩
      have hb := h.bound
      omega
  · simp only [ht, if_false]
    refine ⟨?_, ?_, ?_, ?_, ?_, h.tempsLt, ?_, ?_⟩
    · refine List.Nodup.append h.availNodup (List.nodup_singleton _) ?_
      intro q hq hq'
      simp at hq'
      subst hq'
      exact hpav hq
    · intro q hq hc
      rcases List.mem_append.1 hq with hq' | hq'
      · exact h.availBusy q hq' (Finset.mem_of_mem_erase hc)
      · simp at hq'
        subst hq'
        exact absurd hc (Finset.not_mem_erase q st.busy)
    · intro q hq
      rcases List.mem_append.1 hq with hq' | hq'
      · exact h.availTemp q hq'
      · simp at hq'
        subst hq'
        exact ht
    · intro q hq
      rcases List.mem_append.1 hq with hq' | hq'
      · exact h.availLt q hq'
      · simp at hq'
        subst hq'
        exact h.busyLt q hp
    · intro q hq
      exact h.busyLt q (Finset.mem_of_mem_erase hq)
    · intro hcon
      obtain ⟨h1, h2⟩ := h.uninit hcon
      rw [h2] at hp
      exact absurd hp (Finset.not_mem_empty p)
    · show (st.available ++ [p]).length
        + ((st.busy.erase p).filter (fun q => q ∉ st.temps)).card
        ≤ st.poolSize
      have herase : (st.busy.erase p).filter (fun q => q ∉ st.temps)
          = (st.busy.filter (fun q => q ∉ st.temps)).erase p :=
        Finset.filter_erase (fun q => q ∉ st.temps) p st.busy
      have hpmemf : p ∈ st.busy.filter (fun q => q ∉ st.temps) :=
        Finset.mem_filter.2 ⟨hp, ht⟩
      have hcard : ((st.busy.filter (fun q => q ∉ st.temps)).erase p).card
          = (st.busy.filter (fun q => q ∉ st.temps)).card - 1 :=
        Finset.card_erase_of_mem hpmemf
      have hpos : 0 < (st.busy.filter (fun q => q ∉ st.temps)).card :=
        Finset.card_pos.2 ⟨p, hpmemf⟩
      have hb := h.bound
      rw [herase, hcard]
      simp only [List.length_append, List.length_cons, List.length_nil]
      omega

theorem poolInv_destroy (st : PoolState) (h : PoolInv st) :
    PoolInv st.destroy := by
  unfold PoolState.destroy
  refine ⟨?_, ?_, ?_, ?_, ?_, h.tempsLt, ?_, ?_⟩ <;>
    simp

theorem poolInv_step (st : PoolState) (op : PoolOp) (h : PoolInv st)
    (hwf : wfRelOp st op = true) : PoolInv (stepPool st op) := by
  cases op with
  | opInit oks => exact poolInv_init st oks h
  | opAcquire oks r rp t => exact poolInv_acquire st oks r rp t h
  | opRelease p =>
      have hp : p ∈ st.busy := by
        simpa [wfRelOp] using hwf
      exact poolInv_release st p h hp
  | opDestroy => exact poolInv_destroy st h

theorem poolInv_run (st : PoolState) (tr : List PoolOp) (h : PoolInv st)
    (hwf : wfRelTrace st tr = true) : PoolInv (runPool st tr) := by
  induction tr generalizing st with
  | nil => exact h
  | cons op rest ih =>
      simp only [wfRelTrace, Bool.and_eq_true] at hwf
      exact ih _ (poolInv_step st op h hwf.1) hwf.2

theorem runPool_poolSize (st : PoolState) (tr : List PoolOp) :
    (runPool st tr).poolSize = st.poolSize := by
  induction tr generalizing st with
  | nil => rfl
  | cons op rest ih =>
      rw [runPool, ih]
      cases op with
      | opInit oks =>
          show (st.init oks).poolSize = st.poolSize
          unfold PoolState.init
          by_cases hi : st.inited
          · simp [hi]
          · simp only [hi, if_false]
            exact (initLoop_unchanged _ st).2.2.2.2
      | opAcquire oks r rp t =>
          show (st.acquire oks r rp t).1.poolSize = st.poolSize
          unfold PoolState.acquire PoolState.acquireCore
          have hps : (if st.inited then st else st.init oks).poolSize
              = st.poolSize := by
            by_cases hi : st.inited
            · simp [hi]
            · simp only [hi, if_false]
              show (st.init oks).poolSize = st.poolSize
              unfold PoolState.init
              simp only [hi, if_false]
              exact (initLoop_unchanged _ st).2.2.2.2
          set st1 := if st.inited then st else st.init oks
          rcases st1.available.getLast? with _ | p <;>
            cases r <;> cases rp <;> cases t <;> simpa using hps
      | opRelease p =>
          show (st.release p).poolSize = st.poolSize
          unfold PoolState.release
          by_cases hp : p ∈ st.temps <;> simp [hp]
      | opDestroy => rfl

-- Tracking of live pages (needed for the exclusive-collections claim).

theorem liveTracked_initLoop (st : PoolState) (l : List Bool)
    (hav : st.available = []) (hbu : st.busy = ∅) (hl : liveTracked st) :
    ∀ p, p < (initLoop st l).nextId → p ∉ (initLoop st l).temps →
      p ∉ (initLoop st l).closedPages →
      p ∈ (initLoop st l).available ∨ p ∈ (initLoop st l).busy := by
  intro p hp hp2 hp3
  obtain ⟨hbusy, htemps, hclosed, _, _⟩ := initLoop_unchanged l st
  by_cases hplt : p < st.nextId
  · rcases hl p hplt (by rwa [htemps] at hp2) (by rwa [hclosed] at hp3)
      with hc | hc
    · rw [hav] at hc
      cases hc
    · rw [hbu] at hc
      exact absurd hc (Finset.not_mem_empty p)
  · push_neg at hplt
    exact Or.inl (initLoop_fresh l st p hplt hp)

theorem liveTracked_init (st : PoolState) (oks : List Bool)
    (h : PoolInv st) (hl : liveTracked st) : liveTracked (st.init oks) := by
  unfold PoolState.init
  by_cases hi : st.inited
  · rw [if_pos hi]
    exact hl
  · rw [if_neg hi]
    obtain ⟨hav, hbu⟩ := h.uninit (by simpa using hi)
    intro p hp hp2 hp3
    exact liveTracked_initLoop st _ hav hbu hl p hp hp2 hp3

theorem liveTracked_acquireCore (st : PoolState) (rp t : Bool)
    (hl : liveTracked st) :
    liveTracked (st.acquireCore true rp t).1 := by
  unfold PoolState.acquireCore
  rcases hgl : st.available.getLast? with _ | p
  · cases t with
    | false => exact hl
    | true =>
        intro q hq hq2 hq3
        replace hq : q < st.nextId + 1 := hq
        replace hq2 : q ∉ insert st.nextId st.temps := hq2
        replace hq3 : q ∉ st.closedPages := hq3
        show q ∈ st.available ∨ q ∈ insert st.nextId st.busy
        have hqne : q ≠ st.nextId := fun hc =>
          hq2 (hc ▸ Finset.mem_insert_self _ _)
        have hqlt : q < st.nextId := by omega
        have hq2' : q ∉ st.temps := fun hc =>
          hq2 (Finset.mem_insert_of_mem hc)
        rcases hl q hqlt hq2' hq3 with hc | hc
        · exact Or.inl hc
        · exact Or.inr (Finset.mem_insert_of_mem hc)
  · have hmem : p ∈ st.available.getLast? := by
      rw [hgl]
      rfl
    have hdecomp : st.available.dropLast ++ [p] = st.available :=
      List.dropLast_append_getLast? p hmem
    intro q hq hq2 hq3
    replace hq : q < st.nextId := hq
    replace hq2 : q ∉ st.temps := hq2
    replace hq3 : q ∉ st.closedPages := hq3
    show q ∈ st.available.dropLast ∨ q ∈ insert p st.busy
    rcases hl q hq hq2 hq3 with hc | hc
    · rw [← hdecomp] at hc
      rcases List.mem_append.1 hc with hc' | hc'
      · exact Or.inl hc'
      · simp at hc'
        subst hc'
        exact Or.inr (Finset.mem_insert_self _ _)
    · exact Or.inr (Finset.mem_insert_of_mem hc)

theorem liveTracked_acquire (st : PoolState) (oks : List Bool) (rp t : Bool)
    (h : PoolInv st) (hl : liveTracked st) :
    liveTracked (st.acquire oks true rp t).1 := by
  unfold PoolState.acquire
  by_cases hi : st.inited
  · rw [if_pos hi]
    exact liveTracked_acquireCore st rp t hl
  · rw [if_neg hi]
    exact liveTracked_acquireCore _ rp t (liveTracked_init st oks h hl)

theorem liveTracked_release (st : PoolState) (p : Nat)
    (hl : liveTracked st) : liveTracked (st.release p) := by
  unfold PoolState.release
  by_cases ht : p ∈ st.temps
  · rw [if_pos ht]
    intro q hq hq2 hq3
    replace hq : q < st.nextId := hq
    replace hq2 : q ∉ st.temps := hq2
    replace hq3 : q ∉ insert p st.closedPages := hq3
    show q ∈ st.available ∨ q ∈ st.busy.erase p
    have hq3' : q ∉ st.closedPages := fun hc =>
      hq3 (Finset.mem_insert_of_mem hc)
    have hqne : q ≠ p := fun hc => hq2 (hc ▸ ht)
    rcases hl q hq hq2 hq3' with hc | hc
    · exact Or.inl hc
    · exact Or.inr (Finset.mem_erase.2 ⟨hqne, hc⟩)
  · rw [if_neg ht]
    intro q hq hq2 hq3
    replace hq : q < st.nextId := hq
    replace hq2 : q ∉ st.temps := hq2
    replace hq3 : q ∉ st.closedPages := hq3
    show q ∈ st.available ++ [p] ∨ q ∈ st.busy.erase p
    rcases hl q hq hq2 hq3 with hc | hc
    · exact Or.inl (List.mem_append_left _ hc)
    · by_cases hqp : q = p
      · exact Or.inl (List.mem_append_right _ (by simp [hqp]))
      · exact Or.inr (Finset.mem_erase.2 ⟨hqp, hc⟩)

theorem liveTracked_destroy (st : PoolState) (hl : liveTracked st) :
    liveTracked st.destroy := by
  unfold PoolState.destroy
  intro q hq hq2 hq3
  replace hq : q < st.nextId := hq
  replace hq2 : q ∉ st.temps := hq2
  replace hq3 : q ∉ st.closedPages ∪ st.available.toFinset ∪ st.busy := hq3
  exfalso
  have hq3' : q ∉ st.closedPages := fun hc => hq3 (by simp [hc])
  rcases hl q hq hq2 hq3' with hc | hc
  · exact hq3 (by simp [hc])
  · exact hq3 (by simp [hc])

theorem wfFullOp_rel (st : PoolState) (op : PoolOp)
    (h : wfFullOp st op = true) : wfRelOp st op = true := by
  cases op <;> simpa [wfFullOp, wfRelOp] using h

theorem poolLive_step (st : PoolState) (op : PoolOp) (h : PoolInv st)
    (hl : liveTracked st) (hwf : wfFullOp st op = true) :
    liveTracked (stepPool st op) := by
  cases op with
  | opInit oks => exact liveTracked_init st oks h hl
  | opAcquire oks r rp t =>
      have hr : r = true := by simpa [wfFullOp] using hwf
      subst hr
      exact liveTracked_acquire st oks rp t h hl
  | opRelease p => exact liveTracked_release st p hl
  | opDestroy => exact liveTracked_destroy st hl

theorem poolInvLive_run (st : PoolState) (tr : List PoolOp)
    (h : PoolInv st) (hl : liveTracked st)
    (hwf : wfFullTrace st tr = true) :
    PoolInv (runPool st tr) ∧ liveTracked (runPool st tr) := by
  induction tr generalizing st with
  | nil => exact ⟨h, hl⟩
  | cons op rest ih =>
      simp only [wfFullTrace, Bool.and_eq_true] at hwf
      exact ih _ (poolInv_step st op h (wfFullOp_rel st op hwf.1))
        (poolLive_step st op h hl hwf.1) hwf.2

-- Claim theorems about the pool.

/-- A pool of capacity 1, initialized with one page (page 0). -/
def c1state : PoolState := poolAfter 1 [PoolOp.opInit [true]]

/-- Claim C1 (code bug): on an initialized pool with page 0 available,
an `acquire()` whose `resetPage` body fails closes page 0 and creates
a replacement page 1, but `acquire` ignores `resetPage`'s return
value: it returns the closed page 0 (also placing it in `busy`), and
the replacement page 1 is tracked in neither collection.  The claim
that `acquire()` never returns a session closed by `resetPage` is
therefore violated by the code. -/
theorem acquire_returns_closed_session :
    (c1state.acquire [] false true true).2 = some 0 ∧
    0 ∈ (c1state.acquire [] false true true).1.closedPages ∧
    0 ∈ (c1state.acquire [] false true true).1.busy ∧
    (c1state.acquire [] false true true).1.nextId = 2 ∧
    1 ∉ (c1state.acquire [] false true true).1.available ∧
    1 ∉ (c1state.acquire [] false true true).1.busy := by
  decide

/-- Trace for the C3 counterexample: init a capacity-1 pool, acquire
page 0, then release it twice. -/
def dblRelTrace : List PoolOp :=
  [PoolOp.opInit [true], PoolOp.opAcquire [] true true true,
   PoolOp.opRelease 0, PoolOp.opRelease 0]

/-- Claim C3, counterexample: after a double release of non-temporary
page 0 (the second release finds the page not in `busy`), the page
occurs twice in `available`, violating the claimed invariant that a
session is never in `available` more than once even in the presence
of double releases. -/
theorem double_release_duplicates_available :
    (poolAfter 1 dblRelTrace).available = [0, 0] ∧
    (poolAfter 1 dblRelTrace).available.count 0 = 2 ∧
    0 ∉ (poolAfter 1 dblRelTrace).temps ∧
    (poolAfter 1 dblRelTrace).nextId = 1 := by
  decide

/-- Claim C3 (amended): for every sequence of init/acquire/release/
destroy operations in which every release is of a session currently in
`busy` and every `resetPage` succeeds, every live (non-closed)
non-temporary session created by the pool is in at least one of the
two collections, never in both, and never in `available` more than
once (`available` has no duplicates). -/
theorem pool_session_exclusive (capacity : Nat) (tr : List PoolOp)
    (hwf : wfFullTrace (PoolState.mk0 capacity) tr = true) :
    (∀ p, p < (poolAfter capacity tr).nextId →
        p ∉ (poolAfter capacity tr).temps →
        p ∉ (poolAfter capacity tr).closedPages →
        (p ∈ (poolAfter capacity tr).available ∨
          p ∈ (poolAfter capacity tr).busy)) ∧
    (∀ p ∈ (poolAfter capacity tr).available,
        p ∉ (poolAfter capacity tr).busy) ∧
    (poolAfter capacity tr).available.Nodup := by
  obtain ⟨hinv, hlive⟩ := poolInvLive_run (PoolState.mk0 capacity) tr
    (poolInv_mk0 capacity) (liveTracked_mk0 capacity) hwf
  exact ⟨hlive, hinv.availBusy, hinv.availNodup⟩

/-- A well-formed trace on a capacity-2 pool: init both pages, acquire
page 1, release it. -/
def wfPoolTrace : List PoolOp :=
  [PoolOp.opInit [true, true], PoolOp.opAcquire [] true true true,
   PoolOp.opRelease 1]

/-- Witness for C3 at a concrete well-formed trace. -/
theorem pool_session_exclusive_witness :
    (∀ p, p < (poolAfter 2 wfPoolTrace).nextId →
        p ∉ (poolAfter 2 wfPoolTrace).temps →
        p ∉ (poolAfter 2 wfPoolTrace).closedPages →
        (p ∈ (poolAfter 2 wfPoolTrace).available ∨
          p ∈ (poolAfter 2 wfPoolTrace).busy)) ∧
    (∀ p ∈ (poolAfter 2 wfPoolTrace).available,
        p ∉ (poolAfter 2 wfPoolTrace).busy) ∧
    (poolAfter 2 wfPoolTrace).available.Nodup :=
  pool_session_exclusive 2 wfPoolTrace (by decide)

/-- Claim C4: starting from `init(capacity)`, for every sequence of
acquire/release operations in which each release is of a held (busy)
session, the number of non-temporary sessions in the two collections,
`available.size` plus the non-temporary part of `busy.size`, never
exceeds the capacity; temporary overflow pages are excluded from the
count, as the claim prescribes. -/
theorem pool_capacity_bound (capacity : Nat) (tr : List PoolOp)
    (hwf : wfRelTrace (PoolState.mk0 capacity) tr = true) :
    (poolAfter capacity tr).available.length
      + ((poolAfter capacity tr).busy.filter
          (fun p => p ∉ (poolAfter capacity tr).temps)).card ≤ capacity := by
  have h := poolInv_run (PoolState.mk0 capacity) tr (poolInv_mk0 capacity) hwf
  have hps := runPool_poolSize (PoolState.mk0 capacity) tr
  have hb := h.bound
  rw [hps] at hb
  exact hb

/-- Trace for the C4 witness: capacity-1 pool, init, acquire the pooled
page, acquire again (overflow temporary), release the pooled page. -/
def c4trace : List PoolOp :=
  [PoolOp.opInit [true], PoolOp.opAcquire [] true true true,
   PoolOp.opAcquire [] true true true, PoolOp.opRelease 0]

/-- Witness for C4 at a concrete trace that includes an overflow
temporary page. -/
theorem pool_capacity_bound_witness :
    (poolAfter 1 c4trace).available.length
      + ((poolAfter 1 c4trace).busy.filter
          (fun p => p ∉ (poolAfter 1 c4trace).temps)).card ≤ 1 :=
  pool_capacity_bound 1 c4trace (by decide)

-- ===========================================================================
-- Browser-fatal error handling (index.js: isBrowserError, closeBrowser,
-- ensureBrowser, the render routes' catch blocks and /healthz)
-- ===========================================================================

/-- Whether the first list is a prefix of the second. -/
def leadsWith : List Char → List Char → Bool
  | [], _ => true
  | _ :: _, [] => false
  | a :: as, b :: bs => (a == b) && leadsWith as bs

/-- Whether `needle` occurs as a contiguous sublist. -/
def subSearch (needle : List Char) : List Char → Bool
  | [] => needle.isEmpty
  | c :: rest => leadsWith needle (c :: rest) || subSearch needle rest

/-- JS `s.includes(sub)`: substring containment. -/
def strIncludes (s sub : String) : Bool :=
  subSearch sub.toList s.toList

/-- A JS error as inspected by `isBrowserError`: its `name` and its
optional `message` (`error.message?.`). -/
structure JsError where
  name : String
  message : Option String
deriving DecidableEq

/-- `isBrowserError(error)`: name is `ProtocolError`, or the message
contains one of the four fatal substrings. -/
def isBrowserError (e : JsError) : Bool :=
  e.name == "ProtocolError" ||
    (match e.message with
     | some m =>
         strIncludes m "timed out" || strIncludes m "Target closed" ||
           strIncludes m "Session closed" || strIncludes m "Browser closed"
     | none => false)

/-- The module-level mutable state of `index.js`: the `browser` handle
(`none` = null, `some c` = launched with `connected = c`), the
`pagePool` and the `browserError` health variable. -/
structure ServerState where
  browserConn : Option Bool
  pool : Option PoolState
  browserError : Option String
deriving DecidableEq

/-- JS truthiness of the `browserError` variable: `null`/`undefined`
and the empty string are falsy. -/
def truthy : Option String → Bool
  | none => false
  | some s => !(s == "")

/-- `closeBrowser()`: destroy the pool and close the browser, clearing
both module variables (`browserError` is untouched). -/
def closeBrowser (s : ServerState) : ServerState :=
  { s with pool := none, browserConn := none }

/-- The catch-block shared by the render routes:
`if (isBrowserError(e)) { browserError = e.message; await closeBrowser() }`;
a non-fatal error leaves the module state unchanged (the route only
sends a 500 response). -/
def handleRenderError (s : ServerState) (e : JsError) : ServerState :=
  if isBrowserError e then closeBrowser { s with browserError := e.message }
  else s

/-- `ensureBrowser()`: when the browser is absent or not connected,
launch a new one, clear `browserError`, and create and initialize a
fresh `PagePool` of size 5.  Oracles: `launchOk` is whether
`puppeteer.launch` succeeds (`none` is returned when it throws, the
state unchanged), `initOks` drives the pool's `newPage` calls. -/
def ensureBrowser (s : ServerState) (launchOk : Bool)
    (initOks : List Bool) : Option ServerState :=
  match s.browserConn with
  | some true => some s
  | _ =>
      if launchOk then
        some { browserConn := some true, browserError := none,
               pool := some ((PoolState.mk0 5).init initOks) }
      else none

/-- A `/healthz` response: 503 `unhealthy` with the recorded error, or
200 `ok` with `browser?.connected ?? false` and the pool stats. -/
inductive HealthResp where
  | unhealthy (error : Option String)
  | healthOk (browserConnected : Bool)
      (poolStats : Option (Nat × Nat × Nat × Bool))
deriving DecidableEq

/-- The `/healthz` handler, a pure read of the module state. -/
def healthz (s : ServerState) : HealthResp :=
  if truthy s.browserError then HealthResp.unhealthy s.browserError
  else
    HealthResp.healthOk
      (match s.browserConn with
       | some c => c
       | none => false)
      (s.pool.map PoolState.getStats)

/-- One render request: `await ensureBrowser()` followed by the crawl,
whose outcome is `none` (a payload was produced) or `some e` (the
crawl threw `e` and the route's catch-block ran).  When
`ensureBrowser` itself throws, the crawl never runs. -/
def renderStep (s : ServerState) (launchOk : Bool) (initOks : List Bool)
    (outcome : Option JsError) : ServerState :=
  match ensureBrowser s launchOk initOks with
  | none => s
  | some s1 =>
      match outcome with
      | none => s1
      | some e => handleRenderError s1 e

/-- Claim C7: an error is classified engine-fatal exactly when its name
is `ProtocolError` or its message contains `timed out`, `Target
closed`, `Session closed` or `Browser closed`; exactly when fatal, the
catch path records the message as the failure reason, destroys the
pool and closes and clears the engine handle; a non-fatal error
changes none of this state. -/
theorem fatal_error_classification (e : JsError) (s : ServerState) :
    (isBrowserError e = true ↔
      (e.name = "ProtocolError" ∨
        ∃ m, e.message = some m ∧
          (strIncludes m "timed out" = true ∨
           strIncludes m "Target closed" = true ∨
           strIncludes m "Session closed" = true ∨
           strIncludes m "Browser closed" = true))) ∧
    (isBrowserError e = true →
        handleRenderError s e
          = { browserConn := none, pool := none,
              browserError := e.message }) ∧
    (isBrowserError e = false → handleRenderError s e = s) := by
  refine ⟨?_, ?_, ?_⟩
  · unfold isBrowserError
    cases hm : e.message with
    | none => simp [hm]
    | some m =>
        simp [hm]
        tauto
  · intro hf
    unfold handleRenderError
    rw [if_pos hf]
    rfl
  · intro hnf
    unfold handleRenderError
    rw [if_neg (by simp [hnf])]

/-- A connected server state with a fresh pool and no recorded error. -/
def readyState : ServerState :=
  ⟨some true, some ((PoolState.mk0 5).init []), none⟩

/-- A navigation timeout error, fatal via the `timed out` substring. -/
def timeoutErr : JsError :=
  ⟨ "Error", some "Navigation timed out: 15000 ms exceeded" ⟩

/-- A non-fatal content error. -/
def contentErr : JsError :=
  ⟨ "Error", some "Page content could not be loaded" ⟩

/-- Witness for C7: a fatal and a non-fatal error, evaluated. -/
theorem fatal_error_classification_witness :
    (isBrowserError timeoutErr = true ∧
      handleRenderError readyState timeoutErr
        = { browserConn := none, pool := none,
            browserError := timeoutErr.message }) ∧
    (isBrowserError contentErr = false ∧
      handleRenderError readyState contentErr = readyState) :=
  ⟨⟨by decide,
    (fatal_error_classification timeoutErr readyState).2.1 (by decide)⟩,
   ⟨by decide,
    (fatal_error_classification contentErr readyState).2.2 (by decide)⟩⟩

/-- Claim C9, counterexample: a `ProtocolError` with an empty message is
engine-fatal (the pool is destroyed and the browser closed), yet the
health read afterwards reports 200 `ok`, because `browserError` holds
the empty string and `if (browserError)` treats it as falsy.  The
claim that after an engine-fatal error the health read reports
not-ready with the recorded reason is therefore false as stated. -/
theorem fatal_empty_message_health_ok :
    isBrowserError ⟨ "ProtocolError", some "" ⟩ = true ∧
    (handleRenderError readyState ⟨ "ProtocolError", some "" ⟩).browserConn
      = none ∧
    (handleRenderError readyState ⟨ "ProtocolError", some "" ⟩).pool
      = none ∧
    healthz (handleRenderError readyState ⟨ "ProtocolError", some "" ⟩)
      = HealthResp.healthOk false none := by
  decide

/-- Claim C9 (amended): after an engine-fatal error with a non-empty
message during a render, the health read reports 503 not-ready with
the recorded message and the engine handle and pool are cleared; the
state persists across render attempts whose engine launch fails; and
a render whose respawn succeeds clears the recorded reason and
restores the ready health report. -/
theorem health_until_respawn (s : ServerState) (e : JsError) (r : String)
    (oks : List Bool) (out : Option JsError) :
    (isBrowserError e = true → truthy e.message = true →
        healthz (handleRenderError s e) = HealthResp.unhealthy e.message ∧
        (handleRenderError s e).browserConn = none ∧
        (handleRenderError s e).pool = none) ∧
    (s.browserError = some r → r ≠ "" → s.browserConn = none →
        renderStep s false oks out = s ∧
        healthz s = HealthResp.unhealthy (some r)) ∧
    (s.browserConn = none →
        (renderStep s true oks none).browserError = none ∧
        healthz (renderStep s true oks none)
          = HealthResp.healthOk true
              (some ((PoolState.mk0 5).init oks).getStats)) := by
  refine ⟨?_, ?_, ?_⟩
  · intro hf ht
    unfold handleRenderError
    rw [if_pos hf]
    refine ⟨?_, rfl, rfl⟩
    unfold healthz closeBrowser
    simp only []
    rw [if_pos ht]
  · intro hr hne hconn
    constructor
    · unfold renderStep ensureBrowser
      rw [hconn]
      simp
    · unfold healthz
      rw [hr]
      rw [if_pos (by simp [truthy, hne])]
  · intro hconn
    unfold renderStep ensureBrowser
    rw [hconn]
    simp only [if_true]
    constructor
    · trivial
    · unfold healthz
      simp [truthy, PoolState.getStats]

/-- A torn-down server state after a fatal timeout. -/
def downState : ServerState :=
  ⟨none, none, some "Navigation timed out: 15000 ms exceeded" ⟩

/-- Witness for C9: the fatal transition, the persistence under a
failed respawn, and the recovery under a successful respawn, each at a
concrete state. -/
theorem health_until_respawn_witness :
    (healthz (handleRenderError readyState timeoutErr)
        = HealthResp.unhealthy timeoutErr.message ∧
      (handleRenderError readyState timeoutErr).browserConn = none ∧
      (handleRenderError readyState timeoutErr).pool = none) ∧
    (renderStep downState false [] none = downState ∧
      healthz downState
        = HealthResp.unhealthy
            (some "Navigation timed out: 15000 ms exceeded" )) ∧
    ((renderStep downState true [] none).browserError = none ∧
      healthz (renderStep downState true [] none)
        = HealthResp.healthOk true
            (some ((PoolState.mk0 5).init []).getStats)) :=
  ⟨(health_until_respawn readyState timeoutErr "" [] none).1
      (by decide) (by decide),
   (health_until_respawn downState timeoutErr
      "Navigation timed out: 15000 ms exceeded" [] none).2.1
      rfl (by decide) rfl,
   (health_until_respawn downState timeoutErr "" [] none).2.2 rfl⟩

-- ===========================================================================
-- Guaranteed session cleanup (crawler.js and og-preview.js try/finally)
-- ===========================================================================

/-- What the `finally` block did with the session. -/
inductive Cleanup where
  | released   -- `pagePool.release(page)`
  | closedPage -- `page.close()`
  | noPage     -- `page` was still null, nothing to clean up
deriving DecidableEq

/-- Result of one guarded execution: whether the body completed (the
payload was returned rather than an exception propagating) and what
the `finally` block did. -/
structure RunOutcome where
  completed : Bool
  cleanup : Cleanup
deriving DecidableEq

/-- The `finally` block shared by `crawler`, `generateOgImage`,
`generateFacsimileOgImage` and `extractMetadata`:
`if (page) { if (fromPool && pagePool) await pagePool.release(page)
else await page.close() }`.  `fromPool` is true exactly when the page
was taken from the pool. -/
def cleanupOf (hasPool : Bool) : Option Nat → Cleanup
  | none => Cleanup.noPage
  | some _ => if hasPool then Cleanup.released else Cleanup.closedPage

/-- The shape shared by all four functions: acquire a page (from the
pool when one is passed, else `browser.newPage()`; `acquireOk` is
whether that call succeeds), then run the body steps (`steps` lists
the outcome of each await: `setUserAgent`, interception setup,
viewport, `goto`, waits, extraction, ...), each failing step throwing
past the rest; the `finally` block always runs on the way out. -/
def pooledRun (hasPool acquireOk : Bool) (steps : List Bool) : RunOutcome :=
  match (if acquireOk then some 0 else none : Option Nat) with
  | none => { completed := false, cleanup := cleanupOf hasPool none }
  | some p =>
      { completed := steps.all (fun b => b),
        cleanup := cleanupOf hasPool (some p) }

/-- `crawler({browser, pagePool, url})`: its body steps are
`setUserAgent`, `setRequestInterception`, `goto`, `content`. -/
def crawlerRun (hasPool acquireOk ua intercept goto content : Bool) :
    RunOutcome :=
  pooledRun hasPool acquireOk [ua, intercept, goto, content]

/-- `generateOgImage({browser, pagePool, url})`: a cache hit returns
before any session is involved (`none`); a facsimile URL delegates to
`generateFacsimileOgImage`; otherwise the screenshot path runs.  Both
session-using paths have the shared `try/finally` shape. -/
def generateOgImageRun (cacheHit facsimile hasPool acquireOk : Bool)
    (steps : List Bool) : Option RunOutcome :=
  if cacheHit then none
  else if facsimile then some (pooledRun hasPool acquireOk steps)
  else some (pooledRun hasPool acquireOk steps)

/-- Claim C8: whenever the session acquisition succeeded, the cleanup
path always runs, releasing the session back to the pool exactly when
it came from the pool and closing it otherwise — whether or not the
body completed, and at whichever step it threw.  This covers
`crawler` and both session-using paths of `generateOgImage`; a cache
hit involves no session at all. -/
theorem session_always_cleaned (hasPool ua intercept goto content
    facsimile : Bool) (steps : List Bool) :
    (crawlerRun hasPool true ua intercept goto content).cleanup
      = (if hasPool then Cleanup.released else Cleanup.closedPage) ∧
    ((generateOgImageRun false facsimile hasPool true steps).map
        RunOutcome.cleanup)
      = some (if hasPool then Cleanup.released else Cleanup.closedPage) ∧
    generateOgImageRun true facsimile hasPool true steps = none := by
  refine ⟨?_, ?_, ?_⟩
  · cases hasPool <;> rfl
  · cases facsimile <;> cases hasPool <;> rfl
  · rfl

-- ===========================================================================
-- HTML escaping (og-preview.js: escapeHtml, generateOgMetaTags)
-- ===========================================================================

/-- The apostrophe character (code point 39). -/
def apos : Char := Char.ofNat 39

/-- `str.replace(/c/g, rep)` for a single-character pattern: replace
every occurrence of `c` by `rep`. -/
def replaceAllChar (c : Char) (rep : List Char) : List Char → List Char
  | [] => []
  | a :: t =>
      if a = c then rep ++ replaceAllChar c rep t
      else a :: replaceAllChar c rep t

/-- The five sequential global replaces of `escapeHtml`, innermost
first: `&`, `<`, `>`, `"`, apostrophe. -/
def escapeList (l : List Char) : List Char :=
  replaceAllChar apos "&#039;".toList
    (replaceAllChar '"' "&quot;".toList
      (replaceAllChar '>' "&gt;".toList
        (replaceAllChar '<' "&lt;".toList
          (replaceAllChar '&' "&amp;".toList l))))

/-- `escapeHtml(str)`: falsy input (null, undefined or the empty
string) gives the empty string; otherwise the five replaces run. -/
def escapeHtml : Option String → String
  | none => ""
  | some s => if s = "" then "" else String.mk (escapeList s.toList)

/-- The per-character effect of the whole pipeline (derived, used to
state and prove its properties). -/
def escChar (a : Char) : List Char :=
  if a = '&' then "&amp;".toList
  else if a = '<' then "&lt;".toList
  else if a = '>' then "&gt;".toList
  else if a = '"' then "&quot;".toList
  else if a = apos then "&#039;".toList
  else [a]

/-- The four characters that must not survive escaping. -/
def badChar (a : Char) : Bool :=
  a == '<' || a == '>' || a == '"' || a == apos

/-- One of the five emitted entities starts at the head of the list. -/
def entityAt (l : List Char) : Bool :=
  leadsWith "&amp;".toList l || leadsWith "&lt;".toList l ||
    leadsWith "&gt;".toList l || leadsWith "&quot;".toList l ||
    leadsWith "&#039;".toList l

/-- Every ampersand in the list starts one of the five entities. -/
def ampSafe : List Char → Bool
  | [] => true
  | a :: t => (!(a == '&') || entityAt (a :: t)) && ampSafe t

theorem replaceAllChar_eq_flatMap (c : Char) (rep : List Char)
    (l : List Char) :
    replaceAllChar c rep l
      = l.flatMap (fun a => if a = c then rep else [a]) := by
  induction l with
  | nil => rfl
  | cons a t ih => by_cases h : a = c <;> simp [replaceAllChar, h, ih]

theorem escapeList_eq_flatMap (l : List Char) :
    escapeList l = l.flatMap escChar := by
  unfold escapeList
  simp only [replaceAllChar_eq_flatMap, List.flatMap_assoc]
  congr 1
  funext a
  by_cases h1 : a = '&'
  · subst h1
    decide
  · by_cases h2 : a = '<'
    · subst h2
      decide
    · by_cases h3 : a = '>'
      · subst h3
        decide
      · by_cases h4 : a = '"'
        · subst h4
          decide
        · by_cases h5 : a = apos
          · subst h5
            decide
          · simp [escChar, h1, h2, h3, h4, h5]

theorem ampSafe_unit (a : Char) (r : List Char) (hr : ampSafe r = true) :
    ampSafe (escChar a ++ r) = true := by
  by_cases h1 : a = '&'
  · subst h1
    simp [escChar, ampSafe, entityAt, leadsWith, hr]
  · by_cases h2 : a = '<'
    · subst h2
      simp [escChar, ampSafe, entityAt, leadsWith, hr]
    · by_cases h3 : a = '>'
      · subst h3
        simp [escChar, ampSafe, entityAt, leadsWith, hr]
      · by_cases h4 : a = '"'
        · subst h4
          simp [escChar, ampSafe, entityAt, leadsWith, hr]
        · by_cases h5 : a = apos
          · subst h5
            simp [escChar, ampSafe, entityAt, leadsWith, hr]
          · simp [escChar, h1, h2, h3, h4, h5, ampSafe, hr]

theorem noBad_unit (a : Char) (r : List Char)
    (hr : r.all (fun c => !(badChar c)) = true) :
    (escChar a ++ r).all (fun c => !(badChar c)) = true := by
  have hunit : (escChar a).all (fun c => !(badChar c)) = true := by
    by_cases h1 : a = '&'
    · subst h1
      decide
    · by_cases h2 : a = '<'
      · subst h2
        decide
      · by_cases h3 : a = '>'
        · subst h3
          decide
        · by_cases h4 : a = '"'
          · subst h4
            decide
          · by_cases h5 : a = apos
            · subst h5
              decide
            · simp [escChar, h1, h2, h3, h4, h5, badChar]
  rw [List.all_append, hunit, hr]
  rfl

theorem escapeList_safe (l : List Char) :
    (escapeList l).all (fun c => !(badChar c)) = true ∧
    ampSafe (escapeList l) = true := by
  rw [escapeList_eq_flatMap]
  induction l with
  | nil => exact ⟨rfl, rfl⟩
  | cons a t ih =>
      rw [List.flatMap_cons]
      exact ⟨noBad_unit a _ ih.1, ampSafe_unit a _ ih.2⟩

-- generateOgMetaTags (og-preview.js): the title/description building
-- and the trimmed template with every dynamic value escaped.

def OG_IMAGE_WIDTH : Nat := 1200

def OG_IMAGE_HEIGHT : Nat := 630

/-- The metadata object destructured by `generateOgMetaTags`; absent
values are `none`, empty strings are falsy like in JS. -/
structure OgMetadata where
  author : Option String
  bookTitle : Option String
  year : Option String
  chapterTitle : Option String
  description : Option String
deriving DecidableEq

/-- JS `a || b` on an optional string against a default. -/
def jsOr (a : Option String) (b : String) : String :=
  if truthy a then a.getD "" else b

/-- The title-building sequence of `generateOgMetaTags`. -/
def buildTitle (m : OgMetadata) : String :=
  let title := ""
  let title := if truthy m.chapterTitle then m.chapterTitle.getD "" else title
  let title :=
    if truthy m.bookTitle then
      (if title == "" then m.bookTitle.getD ""
       else title ++ " — " ++ m.bookTitle.getD "")
    else title
  let title :=
    if truthy m.author then title ++ " av " ++ m.author.getD "" else title
  let title :=
    if truthy m.year then title ++ " (" ++ m.year.getD "" ++ ")" else title
  title

/-- `description || ⟨fallback sentence⟩`. -/
def ogDescription (m : OgMetadata) : String :=
  if truthy m.description then m.description.getD ""
  else
    "Läs " ++ jsOr m.bookTitle "texten" ++ " av "
      ++ jsOr m.author "författaren" ++ " på Litteraturbanken"

-- The constant template pieces between the interpolations (the
-- template literal after `.trim()`).

def ogT1 : String :=
  "<!-- Open Graph / Facebook -->\n<meta property=\"og:type\" content=\"article\">\n<meta property=\"og:url\" content=\""

def ogT2 : String := "\">\n<meta property=\"og:title\" content=\""

def ogT3 : String := "\">\n<meta property=\"og:description\" content=\""

def ogT4 : String := "\">\n<meta property=\"og:image\" content=\""

def ogT5 : String :=
  "\">\n<meta property=\"og:image:type\" content=\"image/jpeg\">\n<meta property=\"og:image:width\" content=\""
    ++ toString OG_IMAGE_WIDTH
    ++ "\">\n<meta property=\"og:image:height\" content=\""
    ++ toString OG_IMAGE_HEIGHT
    ++ "\">\n<meta property=\"og:site_name\" content=\"Litteraturbanken\">\n<meta property=\"og:locale\" content=\"sv_SE\">\n\n<!-- Twitter -->\n<meta name=\"twitter:card\" content=\"summary_large_image\">\n<meta name=\"twitter:url\" content=\""

def ogT6 : String := "\">\n<meta name=\"twitter:title\" content=\""

def ogT7 : String := "\">\n<meta name=\"twitter:description\" content=\""

def ogT8 : String := "\">\n<meta name=\"twitter:image\" content=\""

def ogT9 : String :=
  "\">\n\n<!-- Article metadata -->\n<meta property=\"article:author\" content=\""

def ogT10 : String := "\">"

/-- `generateOgMetaTags({url, imageUrl, metadata})`: the trimmed
template, every interpolated dynamic value passed through
`escapeHtml`. -/
def generateOgMetaTags (url imageUrl : String) (m : OgMetadata) : String :=
  ogT1 ++ escapeHtml (some url) ++ ogT2
    ++ escapeHtml (some (buildTitle m)) ++ ogT3
    ++ escapeHtml (some (ogDescription m)) ++ ogT4
    ++ escapeHtml (some imageUrl) ++ ogT5 ++ escapeHtml (some url)
    ++ ogT6 ++ escapeHtml (some (buildTitle m)) ++ ogT7
    ++ escapeHtml (some (ogDescription m)) ++ ogT8
    ++ escapeHtml (some imageUrl) ++ ogT9
    ++ escapeHtml (some (jsOr m.author "")) ++ ogT10

/-- Claim C10: `escapeHtml` output contains no `<`, `>`, `"` or
apostrophe, and every `&` in it starts one of the five entities it
emits; null, undefined and the empty string map to the empty string;
and every dynamic value interpolated into an attribute position of
`generateOgMetaTags` is wrapped in `escapeHtml`, hence carries these
guarantees. -/
theorem escapeHtml_escapes (s : Option String) (url imageUrl : String)
    (m : OgMetadata) :
    (escapeHtml s).toList.all (fun c => !(badChar c)) = true ∧
    ampSafe (escapeHtml s).toList = true ∧
    escapeHtml none = "" ∧
    escapeHtml (some "") = "" ∧
    generateOgMetaTags url imageUrl m
      = ogT1 ++ escapeHtml (some url) ++ ogT2
        ++ escapeHtml (some (buildTitle m)) ++ ogT3
        ++ escapeHtml (some (ogDescription m)) ++ ogT4
        ++ escapeHtml (some imageUrl) ++ ogT5 ++ escapeHtml (some url)
        ++ ogT6 ++ escapeHtml (some (buildTitle m)) ++ ogT7
        ++ escapeHtml (some (ogDescription m)) ++ ogT8
        ++ escapeHtml (some imageUrl) ++ ogT9
        ++ escapeHtml (some (jsOr m.author "")) ++ ogT10 := by
  refine ⟨?_, ?_, rfl, rfl, rfl⟩
  · cases s with
    | none => rfl
    | some str =>
        by_cases h : str = ""
        · simp [escapeHtml, h]
        · show ((if str = "" then ""
              else String.mk (escapeList str.toList)) : String).toList.all
              (fun c => !(badChar c)) = true
          rw [if_neg h]
          exact (escapeList_safe str.toList).1
  · cases s with
    | none => rfl
    | some str =>
        by_cases h : str = ""
        · simp [escapeHtml, h, ampSafe]
        · show ampSafe ((if str = "" then ""
              else String.mk (escapeList str.toList)) : String).toList = true
          rw [if_neg h]
          exact (escapeList_safe str.toList).2
